import Mathlib

/-!
Shallow embedding of `src/amaranth/vendor/_siliconblue.py` (the iCE40 /
SiliconBlue platform lowering code) and proofs about it.

The embedding translates the two verification-relevant parts of the source:

* `SiliconBluePlatform.create_missing_domain` (lines 349-426): validation of
  the `hfosc_div` divider exponent, the stabilization delay computation, and
  the power-on-reset (`por`) domain logic (a saturating up-counter plus a
  `ready` latch).
* `SiliconBluePlatform._get_io_buffer_single` / `get_io_buffer`
  (lines 428-587): lowering of I/O buffer descriptors onto `SB_IO`,
  `SB_GB_IO`, `SB_LUT4` and `SB_DFF` primitive instantiations.

Machine integers are modelled as `Nat`/`Int`.  Python exceptions are modelled
as an explicit error type; a lowering returns the list of module items emitted
before the first raised exception together with the exception, if any.

The surrounding Amaranth HDL object model (`Signal`, `Module`, `Instance`,
clock domains, sequential assignment) is not part of `src/`; where its
behaviour matters it is modelled from the specification: sequential (`m.d`)
assignments take effect at the next clock edge, registers start at zero (the
source comments state that the vendor tools do not support flip-flop
initialization), and the `por` timer register is wide enough to hold every
value of the saturating counter's range `[0, delay]` (spec section 3,
`ResetTimerState`).  Floating point expressions such as
`int(100e-6 * self.default_clk_frequency)` are modelled by exact integer
arithmetic on the mathematically intended values.
-/

namespace SiliconBlue

/-- A Python attribute/parameter value, as far as the lowering code inspects
one: `isinstance(v, int)` (which is also true for `bool`), comparison with
integer bounds, and truthiness.  `float` carries an uninterpreted tag plus a
zero/nonzero bit for truthiness. -/
inductive PyVal where
  | int (i : Int)
  | bool (b : Bool)
  | str (s : String)
  | float (x : Int)
deriving DecidableEq

/-- Python `bool(v)`. -/
def pyTruthy : PyVal → Bool
  | .int i => i != 0
  | .bool b => b
  | .str s => s ≠ ""
  | .float x => x != 0

/-- Python `isinstance(v, int)`; true for `bool` values too, since `bool` is
a subclass of `int`. -/
def isInstInt : PyVal → Bool
  | .int _ => true
  | .bool _ => true
  | _ => false

/-- The integer value of a `PyVal` known to satisfy `isInstInt`. -/
def pyToInt : PyVal → Int
  | .int i => i
  | .bool b => if b then 1 else 0
  | .float x => x
  | .str _ => 0

/-- Buffer direction (`amaranth.lib.io.Direction`). -/
inductive Direction where
  | input
  | output
  | bidir
deriving DecidableEq

/-- The three buffer registration kinds the source dispatches on:
`io.Buffer` (combinational), `io.FFBuffer` (single-registered), and
`io.DDRBuffer` (double data rate). -/
inductive BufKind where
  | buffer
  | ffbuffer
  | ddrbuffer
deriving DecidableEq

/-- The exceptions raised by the translated code, with the concrete Python
exception class and message site noted for each. -/
inductive Err where
  /-- `TypeError` at line 568: bidirectional differential ports. -/
  | tyDiffBidir
  /-- `ValueError` at line 494: inversion on a global input buffer. -/
  | valGlobalInvert
  /-- `ValueError` at line 496: registered global input buffer. -/
  | valGlobalRegistered
  /-- `ValueError` at line 373: `hfosc_div` attribute absent. -/
  | valHfoscDivMissing
  /-- `ValueError` at line 376: `hfosc_div` not an integer in `[0, 3]`;
  carries the offending value, which the message interpolates via `{!r}`. -/
  | valHfoscDivBad (v : PyVal)
  /-- `UnboundLocalError` at line 581: the local `invert_lut` is read in the
  differential-input branch but only ever assigned in the
  differential-output branch (line 571). -/
  | unboundLocalInvertLut
deriving DecidableEq

/-- The spec's error taxonomy (spec section 7) names `UnsupportedConfiguration`
for: differential bidirectional ports, and inversion or registration on a
global input pin.  This predicate maps the concrete exceptions of the code to
that spec-level class. -/
def isUnsupportedConfiguration : Err → Bool
  | .tyDiffBidir => true
  | .valGlobalInvert => true
  | .valGlobalRegistered => true
  | _ => false

/-- The spec's `InvalidConfiguration` class (spec section 7): a user-supplied
parameter out of its allowed domain, i.e. the divider exponent errors. -/
def isInvalidConfiguration : Err → Bool
  | .valHfoscDivMissing => true
  | .valHfoscDivBad _ => true
  | _ => false

/-! ## Power-on reset domain (`create_missing_domain`, lines 349-426) -/

/-- The stabilization delay for the internal high-speed oscillator
(line 385): `int(100e-6 * self.default_clk_frequency)` with
`default_clk_frequency = 48 MHz / 2 ** hfosc_div` (line 342).  The real value
`4800 / 2 ^ e` is an integer for every valid exponent, so truncation is
exact; the float product is modelled by exact arithmetic. -/
def hfoscDelay (e : Nat) : Nat := 4800 / 2 ^ e

/-- The stabilization delay for the internal low-speed oscillator
(line 393): `int(100e-6 * 10e3) = 1`. -/
def lfoscDelay : Nat := 1

/-- The stabilization delay for a user-supplied default clock (line 399):
`int(15e-6 * self.default_clk_frequency)`, frequency in Hz. -/
def userDelay (freq : Nat) : Nat := 15 * freq / 1000000

/-- Ceiling division on naturals, used to state the spec's
`ceil(100us x frequency)` formulas. -/
def cdiv (a b : Nat) : Nat := (a + b - 1) / b

/-- State of the `por` domain registers (lines 410-416): the saturating
`timer` counter and the `ready` latch.  Both reset to zero/false (the source
comment at lines 365-366 explains the counter must start from zero because
flip-flop initialization is unsupported). -/
structure PorState where
  timer : Nat
  ready : Bool
deriving DecidableEq

/-- One clock edge of the `por` domain (lines 413-416):
`If timer == delay: ready <= 1 Else: timer <= timer + 1`.  A register not
assigned in the taken branch holds its value. -/
def porStep (delay : Nat) (s : PorState) : PorState :=
  if s.timer = delay then { timer := s.timer, ready := true }
  else { timer := s.timer + 1, ready := s.ready }

/-- The `por` register state after `t` clock edges, starting from the
all-zero power-up state. -/
def porRun (delay : Nat) : Nat → PorState
  | 0 => { timer := 0, ready := false }
  | t + 1 => porStep delay (porRun delay t)

theorem porRun_eq (delay : Nat) :
    ∀ t, porRun delay t = { timer := min t delay, ready := decide (delay + 1 ≤ t) } := by
  intro t
  induction t with
  | zero => simp [porRun]
  | succ t ih =>
    simp only [porRun, ih, porStep]
    by_cases h : min t delay = delay
    · have h1 : min (t + 1) delay = delay := by omega
      have h2 : delay + 1 ≤ t + 1 := by omega
      simp [h, h1, h2]
    · have h1 : min (t + 1) delay = min t delay + 1 := by omega
      have h2 : ¬ delay + 1 ≤ t := by omega
      have h3 : ¬ delay + 1 ≤ t + 1 := by omega
      simp [h, h1, h2, h3]

theorem porRun_timer (delay t : Nat) : (porRun delay t).timer = min t delay := by
  simp [porRun_eq]

theorem porRun_ready (delay t : Nat) :
    (porRun delay t).ready = decide (delay + 1 ≤ t) := by
  simp [porRun_eq]

/-! ## Netlist model

An emitted module is a list of items: primitive instantiations
(`Instance(...)` / `m.submodules +=`), `RequirePosedge` submodules, and the
combinational assignments produced by `get_inv` (`m.d.comb += y.eq(...)`). -/

/-- A connection supplied to an `Instance` argument. -/
inductive Conn where
  /-- `port.io[bit]`; `leg` distinguishes the p/n legs of a differential
  port ("io" for a plain single-ended port). -/
  | pin (leg : String) (bit : Nat)
  /-- bit `bit` of the internal or buffer-facing signal called `name`. -/
  | sigBit (name : String) (bit : Nat)
  /-- `ClockSignal(domain)`. -/
  | clockSignal (domain : String)
  /-- a constant of the given value and width. -/
  | const (v : Nat) (w : Nat)
  /-- `buffer.oe`, the output enable signal. -/
  | oe
deriving DecidableEq

/-- A parameter value supplied to an `Instance`. -/
inductive ParamVal where
  /-- `Const(v, w)` / `C(v, w)`. -/
  | const (v : Nat) (w : Nat)
  /-- a string parameter such as `CLKHF_DIV`. -/
  | str (s : String)
  /-- a metadata attribute value forwarded verbatim. -/
  | py (v : PyVal)
deriving DecidableEq

/-- One entry of an `Instance(...)` argument list, in order: either a
parameter (`("p", name, value)`) or a port connection
(`(dir, name, conn)` with dir one of "i", "o", "io"). -/
inductive Arg where
  | param (name : String) (v : ParamVal)
  | port (dir : String) (name : String) (c : Conn)
deriving DecidableEq

/-- A primitive instantiation. -/
structure Inst where
  name : String
  args : List Arg
deriving DecidableEq

/-- The three shapes of combinational assignment `get_inv` can produce for
`y` from `a` (lines 446-453). -/
inductive InvKind where
  | pass
  | complement
  | xorMask (mask : Nat)
deriving DecidableEq

/-- The bus transform denoted by an `InvKind` on a `w`-bit bus. -/
def InvKind.apply (k : InvKind) (w : Nat) (x : Nat) : Nat :=
  match k with
  | .pass => x
  | .complement => (2 ^ w - 1) ^^^ x
  | .xorMask m => x ^^^ m

/-- One `m.d.comb += y.eq(...)` assignment emitted by `get_inv`. -/
structure CombAssign where
  y : String
  a : String
  kind : InvKind
deriving DecidableEq

/-- An item emitted into the module under construction. -/
inductive ModItem where
  | inst (i : Inst)
  | requirePosedge (domain : String)
  | comb (c : CombAssign)
deriving DecidableEq

/-- The primitive instantiations among a list of module items. -/
def instsOf (items : List ModItem) : List Inst :=
  items.filterMap fun it =>
    match it with
    | .inst i => some i
    | _ => none

/-- The instantiations with a given primitive name. -/
def instNamed (items : List ModItem) (nm : String) : List Inst :=
  (instsOf items).filter fun i => i.name = nm

/-- The combinational assignments among a list of module items. -/
def combsOf (items : List ModItem) : List CombAssign :=
  items.filterMap fun it =>
    match it with
    | .comb c => some c
    | _ => none

/-- Whether an instantiation is one of the two I/O primitives. -/
def isIOPrim (i : Inst) : Bool :=
  i.name = "SB_IO" || i.name = "SB_GB_IO"

/-- The value of the last parameter named `PIN_TYPE` in an instantiation's
argument list (a later duplicate parameter overrides an earlier one). -/
def pinTypeParam (i : Inst) : Option ParamVal :=
  i.args.reverse.findSome? fun a =>
    match a with
    | .param nm v => if nm = "PIN_TYPE" then some v else none
    | .port _ _ _ => none

/-! ## Ports and buffers -/

/-- The per-bit physical binding: the metadata attribute map of the pin
(`port.io.metadata[bit].attrs`). -/
structure PortBit where
  attrs : List (String × PyVal)
deriving DecidableEq

/-- `io.SingleEndedPort`: the bound pins with their metadata and the per-bit
inversion flags.  `leg` labels which physical leg the pins are
("io" for a plain port, "p"/"n" for differential legs). -/
structure SEPort where
  leg : String
  bits : List PortBit
  invert : List Bool
deriving DecidableEq

/-- `io.DifferentialPort`: positive and negative pin legs plus the per-bit
inversion flags. -/
structure DiffPort where
  p : List PortBit
  n : List PortBit
  invert : List Bool
deriving DecidableEq

/-- The port bound to a buffer. -/
inductive Port where
  | single (sp : SEPort)
  | diff (dp : DiffPort)
deriving DecidableEq

/-- An I/O buffer descriptor: one of the three buffer classes, its
direction, and the clock domain names used by registered kinds. -/
structure Buf where
  kind : BufKind
  direction : Direction
  iDomain : String
  oDomain : String
deriving DecidableEq

/-- `attrs.get(k)` on an attribute map. -/
def attrGet (attrs : List (String × PyVal)) (k : String) : Option PyVal :=
  (attrs.find? fun kv => kv.1 = k).map fun kv => kv.2

/-- The attribute map of bit `bit` of a port. -/
def attrsAt (sp : SEPort) (bit : Nat) : List (String × PyVal) :=
  (sp.bits.getD bit { attrs := [] }).attrs

/-- `bool(attrs.get("GLOBAL", False))` for bit `bit` (line 489). -/
def globalAt (sp : SEPort) (bit : Nat) : Bool :=
  pyTruthy ((attrGet (attrsAt sp bit) "GLOBAL").getD (.bool false))

/-- `sum(int(inv) << bit for bit, inv in enumerate(port.invert))`
(line 447), written as the equivalent little-endian recursion. -/
def maskOf : List Bool → Nat
  | [] => 0
  | x :: xs => (if x then 1 else 0) + 2 * maskOf xs

/-- The `SB_LUT4` instantiation emitted by `get_inv` for one bit
(lines 439-445): an inverting (`0b01`) or pass-through (`0b10`) 16-bit
truth table. -/
def lutInst (y a : String) (bit : Nat) (inv : Bool) : Inst :=
  { name := "SB_LUT4",
    args := [.param "LUT_INIT" (.const (if inv then 1 else 2) 16),
             .port "i" "I0" (.sigBit a bit),
             .port "i" "I1" (.const 0 1),
             .port "i" "I2" (.const 0 1),
             .port "i" "I3" (.const 0 1),
             .port "o" "O" (.sigBit y bit)] }

/-- `get_inv(y, a)` (lines 436-453): with `invert_lut` set, one `SB_LUT4`
per bit of `port.invert`; otherwise a single combinational assignment
chosen from the inversion mask (`portLen` is `len(port)`). -/
def get_inv (invert_lut : Bool) (portLen : Nat) (invert : List Bool)
    (y a : String) : List ModItem :=
  if invert_lut then
    invert.enum.map fun bi => .inst (lutInst y a bi.1 bi.2)
  else
    let mask := maskOf invert
    if mask = 0 then [.comb { y := y, a := a, kind := .pass }]
    else if mask = 2 ^ portLen - 1 then [.comb { y := y, a := a, kind := .complement }]
    else [.comb { y := y, a := a, kind := .xorMask mask }]

/-- The `SB_DFF` instantiation emitted by `get_dff` for one bit
(lines 431-434). -/
def dffInst (domain q d : String) (bit : Nat) : Inst :=
  { name := "SB_DFF",
    args := [.port "i" "C" (.clockSignal domain),
             .port "i" "D" (.sigBit d bit),
             .port "o" "Q" (.sigBit q bit)] }

/-- `get_dff(domain, q, d)` (lines 429-434): one `SB_DFF` per bit. -/
def get_dff (domain : String) (q d : String) (width : Nat) : List ModItem :=
  (List.range width).map fun bit => .inst (dffInst domain q d bit)

/-- The items emitted by `_get_io_buffer_single` before the per-bit loop
(lines 457-484): DDR capture/re-register logic and the inversion handling
for the input and output paths. -/
def preEmit (b : Buf) (sp : SEPort) (invert_lut : Bool) : List ModItem :=
  let w := sp.bits.length
  match b.kind with
  | .ddrbuffer =>
    (if b.direction ≠ .output then
       get_inv invert_lut w sp.invert "i0_neg" "i0" ++
       get_inv invert_lut w sp.invert "i1_neg" "i1" ++
       get_dff b.iDomain "buffer.i0" "i0_neg" w ++
       get_dff b.iDomain "buffer.i1" "i1_neg" w
     else []) ++
    (if b.direction ≠ .input then
       get_dff b.oDomain "o1_ff" "buffer.o1" w ++
       get_inv invert_lut w sp.invert "o0" "buffer.o0" ++
       get_inv invert_lut w sp.invert "o1" "o1_ff"
     else [])
  | _ =>
    (if b.direction ≠ .output then get_inv invert_lut w sp.invert "buffer.i" "i"
     else []) ++
    (if b.direction ≠ .input then get_inv invert_lut w sp.invert "o" "buffer.o"
     else [])

/-- The 2-bit input path type code (lines 503-522). -/
def i_type (d : Direction) (k : BufKind) : Nat :=
  if d = .output then 1
  else match k with
    | .buffer => 1
    | .ffbuffer => 0
    | .ddrbuffer => 0

/-- The 4-bit output path type code (lines 527-539). -/
def o_type (d : Direction) (k : BufKind) : Nat :=
  if d = .input then 0
  else match k with
    | .buffer => 10
    | .ffbuffer => 13
    | .ddrbuffer => 12

/-- `(o_type << 2) | i_type` (line 544). -/
def pinTypeCode (d : Direction) (k : BufKind) : Nat :=
  (o_type d k <<< 2) ||| i_type d k

/-- The arguments appended while selecting `i_type` (lines 503-525). -/
def argsInput (b : Buf) (ig : Bool) (bit : Nat) : List Arg :=
  if b.direction = .output then []
  else match b.kind with
    | .buffer =>
      if ig then [.port "o" "GLOBAL_BUFFER_OUTPUT" (.sigBit "i" bit)]
      else [.port "o" "D_IN_0" (.sigBit "i" bit)]
    | .ffbuffer =>
      [.port "i" "INPUT_CLK" (.clockSignal b.iDomain),
       .port "o" "D_IN_0" (.sigBit "i" bit)]
    | .ddrbuffer =>
      [.port "i" "INPUT_CLK" (.clockSignal b.iDomain),
       .port "o" "D_IN_0" (.sigBit "i0" bit),
       .port "o" "D_IN_1" (.sigBit "i1" bit)]

/-- The arguments appended while selecting `o_type` (lines 527-542). -/
def argsOutput (b : Buf) (bit : Nat) : List Arg :=
  if b.direction = .input then []
  else match b.kind with
    | .buffer => [.port "i" "D_OUT_0" (.sigBit "o" bit)]
    | .ffbuffer =>
      [.port "i" "OUTPUT_CLK" (.clockSignal b.oDomain),
       .port "i" "D_OUT_0" (.sigBit "o" bit)]
    | .ddrbuffer =>
      [.port "i" "OUTPUT_CLK" (.clockSignal b.oDomain),
       .port "i" "D_OUT_0" (.sigBit "o0" bit),
       .port "i" "D_OUT_1" (.sigBit "o1" bit)]

/-- The `RequirePosedge` submodules added while selecting the type codes
(lines 516, 521, 533, 538): for registered kinds, on the input domain when
an input path exists and on the output domain when an output path exists. -/
def reqsOf (b : Buf) : List ModItem :=
  (if b.direction ≠ .output ∧ b.kind ≠ .buffer then [.requirePosedge b.iDomain]
   else []) ++
  (if b.direction ≠ .input ∧ b.kind ≠ .buffer then [.requirePosedge b.oDomain]
   else [])

/-- The attribute parameters forwarded onto the instance (line 500). -/
def attrParams (attrs : List (String × PyVal)) : List Arg :=
  (attrs.filter fun kv => kv.1 ≠ "GLOBAL").map fun kv => .param kv.1 (.py kv.2)

/-- The instance argument list up to (not including) the `PIN_TYPE`
parameter: `PACKAGE_PIN`, attribute parameters, input-path arguments,
output-path arguments (lines 498-542). -/
def lowerBitArgs (b : Buf) (sp : SEPort) (bit : Nat) (ig : Bool) : List Arg :=
  (Arg.port "io" "PACKAGE_PIN" (.pin sp.leg bit) :: attrParams (attrsAt sp bit))
    ++ argsInput b ig bit ++ argsOutput b bit

/-- The trailing instance arguments: the packed `PIN_TYPE` parameter
(line 544) and, when an output path exists, the `OUTPUT_ENABLE` connection
(lines 546-547). -/
def lowerBitTail (b : Buf) : List Arg :=
  Arg.param "PIN_TYPE" (.const (pinTypeCode b.direction b.kind) 6)
    :: (if b.direction ≠ .input then [Arg.port "i" "OUTPUT_ENABLE" Conn.oe] else [])

/-- The items emitted for one bit once the global-input checks have passed:
the `RequirePosedge` submodules and one `SB_GB_IO`/`SB_IO` instance
(lines 549-552). -/
def lowerBitOk (b : Buf) (sp : SEPort) (bit : Nat) (ig : Bool) : List ModItem :=
  reqsOf b ++
    [.inst { name := if ig then "SB_GB_IO" else "SB_IO",
             args := lowerBitArgs b sp bit ig ++ lowerBitTail b }]

/-- The effective `is_global_input` flag for one bit: the `GLOBAL` marker,
forced off for output-only buffers (lines 489-491). -/
def igOf (b : Buf) (sp : SEPort) (bit : Nat) : Bool :=
  if b.direction = .output then false else globalAt sp bit

/-- One iteration of the per-bit loop of `_get_io_buffer_single`
(lines 486-552): a global input pin rejects inversion (line 494) and
registered buffers (line 496). -/
def lowerBit (b : Buf) (sp : SEPort) (bit : Nat) : Except Err (List ModItem) :=
  if igOf b sp bit && sp.invert.getD bit false then .error .valGlobalInvert
  else if igOf b sp bit && decide (b.kind ≠ .buffer) then .error .valGlobalRegistered
  else .ok (lowerBitOk b sp bit (igOf b sp bit))

/-- Runs the per-bit loop over the given bit indices, stopping at the first
raised exception; returns the items emitted before the exception. -/
def lowerBits (b : Buf) (sp : SEPort) : List Nat → List ModItem × Option Err
  | [] => ([], none)
  | bit :: rest =>
    match lowerBit b sp bit with
    | .error e => ([], some e)
    | .ok items =>
      let r := lowerBits b sp rest
      (items ++ r.1, r.2)

/-- `_get_io_buffer_single(buffer, port, invert_lut=...)` (lines 428-554):
the pre-loop emissions followed by the per-bit loop over
`range(len(port))`. -/
def lowerSingle (b : Buf) (sp : SEPort) (invert_lut : Bool) :
    List ModItem × Option Err :=
  let r := lowerBits b sp (List.range sp.bits.length)
  (preEmit b sp invert_lut ++ r.1, r.2)

/-- `~port` on a single-ended port complements the inversion flags. -/
def notInvert (l : List Bool) : List Bool := l.map fun x => !x

/-- `get_io_buffer(buffer)` (lines 556-587).  Differential bidirectional
ports raise `TypeError` (line 568) before anything is emitted.  Differential
output lowers both legs, with `invert_lut = isinstance(buffer, io.Buffer)`
(line 571).  Differential input (line 581) reads the local `invert_lut`,
which on that path was never assigned, so Python raises
`UnboundLocalError` before emitting anything.  Single-ended ports lower with
the default `invert_lut=False` (line 585). -/
def get_io_buffer (b : Buf) (p : Port) : List ModItem × Option Err :=
  match p with
  | .single sp => lowerSingle b sp false
  | .diff dp =>
    let port_p : SEPort := { leg := "p", bits := dp.p, invert := dp.invert }
    let port_n : SEPort := { leg := "n", bits := dp.n, invert := notInvert dp.invert }
    match b.direction with
    | .bidir => ([], some .tyDiffBidir)
    | .output =>
      let il := if b.kind = .buffer then true else false
      let rp := lowerSingle b port_p il
      match rp.2 with
      | some e => (rp.1, some e)
      | none =>
        let rn := lowerSingle b port_n il
        (rp.1 ++ rn.1, rn.2)
    | .input => ([], some .unboundLocalInvertLut)

/-! ## Domain synthesis (`create_missing_domain`, lines 349-426) -/

/-- `f"0b{self.hfosc_div:02b}"` for an exponent in `[0, 3]` (line 383). -/
def clkhfDivStr (e : Nat) : String :=
  "0b" ++ (if e / 2 % 2 = 1 then "1" else "0") ++ (if e % 2 = 1 then "1" else "0")

/-- The `SB_HFOSC` instantiation (lines 380-384). -/
def hfoscInst (e : Nat) : Inst :=
  { name := "SB_HFOSC",
    args := [.port "i" "CLKHFEN" (.const 1 1),
             .port "i" "CLKHFPU" (.const 1 1),
             .param "CLKHF_DIV" (.str (clkhfDivStr e)),
             .port "o" "CLKHF" (.sigBit "clk_i" 0)] }

/-- The `SB_LFOSC` instantiation (lines 389-392). -/
def lfoscInst : Inst :=
  { name := "SB_LFOSC",
    args := [.port "i" "CLKLFEN" (.const 1 1),
             .port "i" "CLKLFPU" (.const 1 1),
             .port "o" "CLKLF" (.sigBit "clk_i" 0)] }

/-- The platform attributes `create_missing_domain` reads.
`default_clk_frequency` (Hz, exact) only matters for a user-defined default
clock. -/
structure Platform where
  default_clk : Option String
  default_rst : Option String
  hfosc_div : Option PyVal
  default_clk_frequency : Nat
deriving DecidableEq

/-- The outcome of `create_missing_domain`. -/
inductive DomainResult where
  /-- the function returned `None` (name not "sync", or no default clock). -/
  | notInvoked
  /-- an exception was raised; carries the primitives emitted before it. -/
  | err (partialItems : List ModItem) (e : Err)
  /-- success: the oscillator primitives emitted and the `por` stabilization
  delay in cycles (the domain/reset wiring of lines 401-424 is driven by the
  `porRun` model above). -/
  | ok (items : List ModItem) (delay : Nat)
deriving DecidableEq

/-- `create_missing_domain(name)` (lines 349-426).  The `hfosc_div`
validation (lines 372-378) runs before the `SB_HFOSC` instance is emitted,
so the error outcomes carry no items. -/
def create_missing_domain (plat : Platform) (nm : String) : DomainResult :=
  match plat.default_clk with
  | none => .notInvoked
  | some clk =>
    if nm ≠ "sync" then .notInvoked
    else if clk = "SB_HFOSC" then
      match plat.hfosc_div with
      | none => .err [] .valHfoscDivMissing
      | some v =>
        if !isInstInt v || pyToInt v < 0 || 3 < pyToInt v then
          .err [] (.valHfoscDivBad v)
        else
          let e := (pyToInt v).toNat
          .ok [.inst (hfoscInst e)] (hfoscDelay e)
    else if clk = "SB_LFOSC" then
      .ok [.inst lfoscInst] lfoscDelay
    else
      .ok [] (userDelay plat.default_clk_frequency)

/-! ## Structural lemmas about the lowering -/

theorem findSome_cons_none {α β : Type} {f : α → Option β} {a : α} {l : List α}
    (h : f a = none) : (a :: l).findSome? f = l.findSome? f := by
  simp [List.findSome?, h]

theorem findSome_cons_some {α β : Type} {f : α → Option β} {a : α} {l : List α}
    {b : β} (h : f a = some b) : (a :: l).findSome? f = some b := by
  simp [List.findSome?, h]

theorem findSome_append_left {α β : Type} {f : α → Option β} {l1 l2 : List α}
    {b : β} (h : l1.findSome? f = some b) : (l1 ++ l2).findSome? f = some b := by
  induction l1 with
  | nil => simp [List.findSome?] at h
  | cons a l ih =>
    rw [List.cons_append]
    cases hfa : f a with
    | none =>
      rw [findSome_cons_none hfa]
      rw [findSome_cons_none hfa] at h
      exact ih h
    | some v =>
      rw [findSome_cons_some hfa]
      rw [findSome_cons_some hfa] at h
      exact h

@[simp] theorem instsOf_nil : instsOf [] = [] := rfl

@[simp] theorem instsOf_append (l1 l2 : List ModItem) :
    instsOf (l1 ++ l2) = instsOf l1 ++ instsOf l2 := by
  simp [instsOf]

@[simp] theorem instsOf_cons_inst (i : Inst) (l : List ModItem) :
    instsOf (.inst i :: l) = i :: instsOf l := rfl

@[simp] theorem instsOf_cons_req (d : String) (l : List ModItem) :
    instsOf (.requirePosedge d :: l) = instsOf l := rfl

@[simp] theorem instsOf_cons_comb (c : CombAssign) (l : List ModItem) :
    instsOf (.comb c :: l) = instsOf l := rfl

@[simp] theorem combsOf_nil : combsOf [] = [] := rfl

@[simp] theorem combsOf_append (l1 l2 : List ModItem) :
    combsOf (l1 ++ l2) = combsOf l1 ++ combsOf l2 := by
  simp [combsOf]

@[simp] theorem combsOf_cons_inst (i : Inst) (l : List ModItem) :
    combsOf (.inst i :: l) = combsOf l := rfl

@[simp] theorem combsOf_cons_req (d : String) (l : List ModItem) :
    combsOf (.requirePosedge d :: l) = combsOf l := rfl

@[simp] theorem combsOf_cons_comb (c : CombAssign) (l : List ModItem) :
    combsOf (.comb c :: l) = c :: combsOf l := rfl

@[simp] theorem instNamed_append (l1 l2 : List ModItem) (nm : String) :
    instNamed (l1 ++ l2) nm = instNamed l1 nm ++ instNamed l2 nm := by
  simp [instNamed]

/-- The single comb assignment emitted by `get_inv` when `invert_lut` is
off. -/
def invAssign (portLen : Nat) (invert : List Bool) (y a : String) : CombAssign :=
  { y := y, a := a,
    kind :=
      if maskOf invert = 0 then .pass
      else if maskOf invert = 2 ^ portLen - 1 then .complement
      else .xorMask (maskOf invert) }

theorem get_inv_false (portLen : Nat) (invert : List Bool) (y a : String) :
    get_inv false portLen invert y a = [.comb (invAssign portLen invert y a)] := by
  simp only [get_inv, invAssign]
  split_ifs <;> simp_all

theorem instsOf_get_inv_false (portLen : Nat) (invert : List Bool) (y a : String) :
    instsOf (get_inv false portLen invert y a) = [] := by
  rw [get_inv_false]; rfl

theorem combsOf_get_inv_false (portLen : Nat) (invert : List Bool) (y a : String) :
    combsOf (get_inv false portLen invert y a) = [invAssign portLen invert y a] := by
  rw [get_inv_false]; rfl

theorem instsOf_map_inst {α : Type} (f : α → Inst) (l : List α) :
    instsOf (l.map fun x => ModItem.inst (f x)) = l.map f := by
  induction l with
  | nil => rfl
  | cons x xs ih => simp only [List.map_cons, instsOf_cons_inst, ih]

theorem combsOf_map_inst {α : Type} (f : α → Inst) (l : List α) :
    combsOf (l.map fun x => ModItem.inst (f x)) = [] := by
  induction l with
  | nil => rfl
  | cons x xs ih => simp only [List.map_cons, combsOf_cons_inst, ih]

theorem instsOf_get_inv_true (portLen : Nat) (invert : List Bool) (y a : String) :
    instsOf (get_inv true portLen invert y a)
      = invert.enum.map fun bi => lutInst y a bi.1 bi.2 := by
  show instsOf (invert.enum.map fun bi => ModItem.inst (lutInst y a bi.1 bi.2))
      = invert.enum.map fun bi => lutInst y a bi.1 bi.2
  exact instsOf_map_inst _ _

theorem combsOf_get_inv_true (portLen : Nat) (invert : List Bool) (y a : String) :
    combsOf (get_inv true portLen invert y a) = [] := by
  show combsOf (invert.enum.map fun bi => ModItem.inst (lutInst y a bi.1 bi.2)) = []
  exact combsOf_map_inst _ _

theorem instsOf_get_inv_true_names (portLen : Nat) (invert : List Bool) (y a : String) :
    ∀ i ∈ instsOf (get_inv true portLen invert y a), i.name = "SB_LUT4" := by
  intro i hi
  rw [instsOf_get_inv_true] at hi
  obtain ⟨bi, _, rfl⟩ := List.mem_map.mp hi
  rfl

theorem instsOf_get_inv_true_length (portLen : Nat) (invert : List Bool) (y a : String) :
    (instsOf (get_inv true portLen invert y a)).length = invert.length := by
  rw [instsOf_get_inv_true]
  simp

theorem instsOf_get_dff (domain q d : String) (w : Nat) :
    instsOf (get_dff domain q d w)
      = (List.range w).map fun bit => dffInst domain q d bit :=
  instsOf_map_inst (fun bit => dffInst domain q d bit) (List.range w)

theorem instsOf_get_dff_names (domain q d : String) (w : Nat) :
    ∀ i ∈ instsOf (get_dff domain q d w), i.name = "SB_DFF" := by
  intro i hi
  rw [instsOf_get_dff] at hi
  obtain ⟨bit, _, rfl⟩ := List.mem_map.mp hi
  rfl

theorem combsOf_get_dff (domain q d : String) (w : Nat) :
    combsOf (get_dff domain q d w) = [] :=
  combsOf_map_inst (fun bit => dffInst domain q d bit) (List.range w)

theorem instsOf_reqsOf (b : Buf) : instsOf (reqsOf b) = [] := by
  unfold reqsOf
  split_ifs <;> rfl

theorem combsOf_reqsOf (b : Buf) : combsOf (reqsOf b) = [] := by
  unfold reqsOf
  split_ifs <;> rfl

/-- The one instance emitted per bit. -/
def bitInst (b : Buf) (sp : SEPort) (bit : Nat) (ig : Bool) : Inst :=
  { name := if ig then "SB_GB_IO" else "SB_IO",
    args := lowerBitArgs b sp bit ig ++ lowerBitTail b }

theorem instsOf_lowerBitOk (b : Buf) (sp : SEPort) (bit : Nat) (ig : Bool) :
    instsOf (lowerBitOk b sp bit ig) = [bitInst b sp bit ig] := by
  unfold lowerBitOk bitInst
  rw [instsOf_append, instsOf_reqsOf]
  rfl

theorem combsOf_lowerBitOk (b : Buf) (sp : SEPort) (bit : Nat) (ig : Bool) :
    combsOf (lowerBitOk b sp bit ig) = [] := by
  unfold lowerBitOk
  rw [combsOf_append, combsOf_reqsOf]
  rfl

theorem pinTypeParam_bitInst (b : Buf) (sp : SEPort) (bit : Nat) (ig : Bool) :
    pinTypeParam (bitInst b sp bit ig)
      = some (.const (pinTypeCode b.direction b.kind) 6) := by
  unfold pinTypeParam bitInst lowerBitTail
  by_cases h : b.direction ≠ .input
  · rw [if_pos h, List.reverse_append]
    exact findSome_append_left rfl
  · rw [if_neg h, List.reverse_append]
    exact findSome_append_left rfl

theorem lowerBit_ok (b : Buf) (sp : SEPort) (bit : Nat) (items : List ModItem)
    (h : lowerBit b sp bit = .ok items) :
    items = lowerBitOk b sp bit (igOf b sp bit) := by
  unfold lowerBit at h
  by_cases h1 : igOf b sp bit && sp.invert.getD bit false
  · rw [if_pos h1] at h; cases h
  · rw [if_neg h1] at h
    by_cases h2 : igOf b sp bit && decide (b.kind ≠ .buffer)
    · rw [if_pos h2] at h; cases h
    · rw [if_neg h2] at h; cases h; rfl

theorem lowerBit_error (b : Buf) (sp : SEPort) (bit : Nat) (e : Err)
    (h : lowerBit b sp bit = .error e) :
    e = .valGlobalInvert ∨ e = .valGlobalRegistered := by
  unfold lowerBit at h
  by_cases h1 : igOf b sp bit && sp.invert.getD bit false
  · rw [if_pos h1] at h; cases h; left; rfl
  · rw [if_neg h1] at h
    by_cases h2 : igOf b sp bit && decide (b.kind ≠ .buffer)
    · rw [if_pos h2] at h; cases h; right; rfl
    · rw [if_neg h2] at h; cases h

theorem lowerBit_of_ig_false (b : Buf) (sp : SEPort) (bit : Nat)
    (h : igOf b sp bit = false) :
    lowerBit b sp bit = .ok (lowerBitOk b sp bit false) := by
  unfold lowerBit
  rw [h]
  simp

theorem igOf_output (b : Buf) (sp : SEPort) (bit : Nat)
    (h : b.direction = .output) : igOf b sp bit = false := by
  unfold igOf
  rw [if_pos h]

theorem mem_instsOf_append {i : Inst} {l1 l2 : List ModItem}
    (h : i ∈ instsOf (l1 ++ l2)) : i ∈ instsOf l1 ∨ i ∈ instsOf l2 := by
  rw [instsOf_append] at h
  exact List.mem_append.mp h

theorem name_of_mem_get_inv {il : Bool} {pl : Nat} {inv : List Bool} {y a : String}
    {i : Inst} (h : i ∈ instsOf (get_inv il pl inv y a)) : i.name = "SB_LUT4" := by
  cases il with
  | false => rw [instsOf_get_inv_false] at h; cases h
  | true => exact instsOf_get_inv_true_names pl inv y a i h

theorem name_of_mem_get_dff {dom q d : String} {w : Nat} {i : Inst}
    (h : i ∈ instsOf (get_dff dom q d w)) : i.name = "SB_DFF" :=
  instsOf_get_dff_names dom q d w i h

/-- Every instance emitted before the per-bit loop is a lookup table or a
fabric flip-flop. -/
theorem instsOf_preEmit (b : Buf) (sp : SEPort) (il : Bool) :
    ∀ i ∈ instsOf (preEmit b sp il),
      i.name = "SB_LUT4" ∨ i.name = "SB_DFF" := by
  intro i hi
  unfold preEmit at hi
  cases hk : b.kind <;> rw [hk] at hi <;> dsimp only at hi <;>
    rcases mem_instsOf_append hi with h | h <;> split_ifs at h
  all_goals first
  | cases h
  | exact Or.inl (name_of_mem_get_inv h)
  | (rcases mem_instsOf_append h with h | h
     · rcases mem_instsOf_append h with h | h
       · rcases mem_instsOf_append h with h | h <;>
           exact Or.inl (name_of_mem_get_inv h)
       · exact Or.inr (name_of_mem_get_dff h)
     · exact Or.inr (name_of_mem_get_dff h))
  | (rcases mem_instsOf_append h with h | h
     · rcases mem_instsOf_append h with h | h
       · exact Or.inr (name_of_mem_get_dff h)
       · exact Or.inl (name_of_mem_get_inv h)
     · exact Or.inl (name_of_mem_get_inv h))

/-- With `invert_lut` off, every instance emitted before the per-bit loop
is a fabric flip-flop (no lookup tables are used). -/
theorem instsOf_preEmit_false (b : Buf) (sp : SEPort) :
    ∀ i ∈ instsOf (preEmit b sp false), i.name = "SB_DFF" := by
  intro i hi
  unfold preEmit at hi
  cases hk : b.kind <;> rw [hk] at hi <;> dsimp only at hi <;>
    rcases mem_instsOf_append hi with h | h <;> split_ifs at h
  all_goals first
  | cases h
  | (rw [instsOf_get_inv_false] at h; cases h)
  | (rcases mem_instsOf_append h with h | h
     · rcases mem_instsOf_append h with h | h
       · rcases mem_instsOf_append h with h | h <;>
           (rw [instsOf_get_inv_false] at h; cases h)
       · exact name_of_mem_get_dff h
     · exact name_of_mem_get_dff h)
  | (rcases mem_instsOf_append h with h | h
     · rcases mem_instsOf_append h with h | h
       · exact name_of_mem_get_dff h
       · rw [instsOf_get_inv_false] at h; cases h
     · rw [instsOf_get_inv_false] at h; cases h)

/-- If the per-bit loop raised nothing, every processed bit lowered
successfully. -/
theorem lowerBits_none_ok (b : Buf) (sp : SEPort) :
    ∀ l : List Nat, (lowerBits b sp l).2 = none →
      ∀ bit ∈ l, lowerBit b sp bit = .ok (lowerBitOk b sp bit (igOf b sp bit)) := by
  intro l
  induction l with
  | nil => intro _ bit hbit; cases hbit
  | cons x xs ih =>
    intro h bit hbit
    unfold lowerBits at h
    cases hx : lowerBit b sp x with
    | error e => rw [hx] at h; cases h
    | ok items =>
      rw [hx] at h
      dsimp only at h
      cases hbit with
      | head => rw [hx, lowerBit_ok b sp x items hx]
      | tail _ htail => exact ih h bit htail

/-- Any exception of the per-bit loop comes from one of the processed
bits. -/
theorem lowerBits_err_mem (b : Buf) (sp : SEPort) :
    ∀ (l : List Nat) (e : Err), (lowerBits b sp l).2 = some e →
      ∃ bit ∈ l, lowerBit b sp bit = .error e := by
  intro l
  induction l with
  | nil => intro e h; cases h
  | cons x xs ih =>
    intro e h
    unfold lowerBits at h
    cases hx : lowerBit b sp x with
    | error e2 =>
      rw [hx] at h
      cases h
      exact ⟨x, List.mem_cons_self x xs, hx⟩
    | ok items =>
      rw [hx] at h
      dsimp only at h
      obtain ⟨bit, hmem, hbit⟩ := ih e h
      exact ⟨bit, List.mem_cons_of_mem x hmem, hbit⟩

/-- Every instance emitted by the per-bit loop is the I/O primitive of one
of the processed bits. -/
theorem lowerBits_insts_mem (b : Buf) (sp : SEPort) :
    ∀ (l : List Nat) (i : Inst), i ∈ instsOf (lowerBits b sp l).1 →
      ∃ bit ∈ l, i = bitInst b sp bit (igOf b sp bit) := by
  intro l
  induction l with
  | nil => intro i hi; cases hi
  | cons x xs ih =>
    intro i hi
    unfold lowerBits at hi
    cases hx : lowerBit b sp x with
    | error e => rw [hx] at hi; cases hi
    | ok items =>
      rw [hx] at hi
      dsimp only at hi
      rcases mem_instsOf_append hi with h | h
      · rw [lowerBit_ok b sp x items hx, instsOf_lowerBitOk] at h
        rcases h with _ | ⟨_, h⟩
        · exact ⟨x, List.mem_cons_self x xs, rfl⟩
        · cases h
      · obtain ⟨bit, hmem, heq⟩ := ih i h
        exact ⟨bit, List.mem_cons_of_mem x hmem, heq⟩

/-- With no exception, the per-bit loop emits exactly one instance per
processed bit. -/
theorem lowerBits_insts_length (b : Buf) (sp : SEPort) :
    ∀ l : List Nat, (lowerBits b sp l).2 = none →
      (instsOf (lowerBits b sp l).1).length = l.length := by
  intro l
  induction l with
  | nil => intro _; rfl
  | cons x xs ih =>
    intro h
    unfold lowerBits
    unfold lowerBits at h
    cases hx : lowerBit b sp x with
    | error e => rw [hx] at h; cases h
    | ok items =>
      rw [hx] at h
      dsimp only at h
      dsimp only
      rw [instsOf_append, List.length_append,
          lowerBit_ok b sp x items hx, instsOf_lowerBitOk, ih h]
      simp [Nat.add_comm]

/-- The per-bit loop emits no combinational assignments. -/
theorem combsOf_lowerBits (b : Buf) (sp : SEPort) :
    ∀ l : List Nat, combsOf (lowerBits b sp l).1 = [] := by
  intro l
  induction l with
  | nil => rfl
  | cons x xs ih =>
    unfold lowerBits
    cases hx : lowerBit b sp x with
    | error e => rfl
    | ok items =>
      dsimp only
      rw [combsOf_append, ih, lowerBit_ok b sp x items hx, combsOf_lowerBitOk]
      rfl

theorem bitInst_name (b : Buf) (sp : SEPort) (bit : Nat) (ig : Bool) :
    (bitInst b sp bit ig).name = if ig then "SB_GB_IO" else "SB_IO" := rfl

/-- When no bit can be an effective global input, the loop raises
nothing. -/
theorem lowerBits_noerr_of_ig (b : Buf) (sp : SEPort)
    (h : ∀ bit, igOf b sp bit = false) :
    ∀ l : List Nat, (lowerBits b sp l).2 = none := by
  intro l
  induction l with
  | nil => rfl
  | cons x xs ih =>
    unfold lowerBits
    rw [lowerBit_of_ig_false b sp x (h x)]
    dsimp only
    exact ih

/-- Output-only buffers never fail the per-bit loop: the global marker is
forced off (lines 490-491), so neither global-input check can fire. -/
theorem lowerSingle_output_noerr (b : Buf) (sp : SEPort) (il : Bool)
    (hd : b.direction = .output) : (lowerSingle b sp il).2 = none := by
  unfold lowerSingle
  dsimp only
  exact lowerBits_noerr_of_ig b sp (fun bit => igOf_output b sp bit hd) _

/-- A port with no `GLOBAL` markers lowers without raising. -/
theorem lowerSingle_noglobal_ok (b : Buf) (sp : SEPort) (il : Bool)
    (h : ∀ bit, globalAt sp bit = false) : (lowerSingle b sp il).2 = none := by
  unfold lowerSingle
  dsimp only
  refine lowerBits_noerr_of_ig b sp (fun bit => ?_) _
  unfold igOf
  by_cases hd : b.direction = .output
  · rw [if_pos hd]
  · rw [if_neg hd]; exact h bit

/-- A bit that is an effective global input and either inverted or
registered raises one of the two global-input exceptions. -/
theorem lowerBit_global_error (b : Buf) (sp : SEPort) (bit : Nat)
    (hd : b.direction ≠ .output) (hg : globalAt sp bit = true)
    (hbad : sp.invert.getD bit false = true ∨ b.kind ≠ .buffer) :
    ∃ e, lowerBit b sp bit = .error e := by
  have hig : igOf b sp bit = true := by
    unfold igOf; rw [if_neg hd]; exact hg
  unfold lowerBit
  rw [hig]
  by_cases hi : sp.invert.getD bit false = true
  · rw [hi]
    exact ⟨.valGlobalInvert, rfl⟩
  · rw [Bool.not_eq_true] at hi
    rw [hi]
    have hk : b.kind ≠ .buffer := by
      rcases hbad with h | h
      · rw [h] at hi; cases hi
      · exact h
    exact ⟨.valGlobalRegistered, by simp [hk]⟩

/-- A violated global-input constraint makes the whole single-ended
lowering raise an exception of the spec's unsupported-configuration
class. -/
theorem lowerSingle_global_fails (b : Buf) (sp : SEPort) (il : Bool) (bit : Nat)
    (hd : b.direction ≠ .output) (hlt : bit < sp.bits.length)
    (hg : globalAt sp bit = true)
    (hbad : sp.invert.getD bit false = true ∨ b.kind ≠ .buffer) :
    ∃ e, (lowerSingle b sp il).2 = some e ∧ isUnsupportedConfiguration e = true := by
  have hmem : bit ∈ List.range sp.bits.length := List.mem_range.mpr hlt
  obtain ⟨e0, he0⟩ := lowerBit_global_error b sp bit hd hg hbad
  unfold lowerSingle
  dsimp only
  cases herr : (lowerBits b sp (List.range sp.bits.length)).2 with
  | none =>
    exfalso
    have := lowerBits_none_ok b sp _ herr bit hmem
    rw [he0] at this
    cases this
  | some e =>
    refine ⟨e, rfl, ?_⟩
    obtain ⟨bit2, _, hb2⟩ := lowerBits_err_mem b sp _ e herr
    rcases lowerBit_error b sp bit2 e hb2 with h | h <;> rw [h] <;> rfl

theorem instNamed_eq_nil_of_names (l : List ModItem) (nm : String)
    (h : ∀ i ∈ instsOf l, i.name ≠ nm) : instNamed l nm = [] := by
  unfold instNamed
  rw [List.filter_eq_nil_iff]
  intro i hi
  simp only [decide_eq_true_eq]
  exact h i hi

theorem instNamed_eq_instsOf_of_names (l : List ModItem) (nm : String)
    (h : ∀ i ∈ instsOf l, i.name = nm) : instNamed l nm = instsOf l := by
  unfold instNamed
  rw [List.filter_eq_self]
  intro i hi
  simp only [decide_eq_true_eq]
  exact h i hi

/-- For a combinational output-only buffer the pre-loop emission is exactly
the output-path `get_inv`. -/
theorem preEmit_buffer_output (b : Buf) (sp : SEPort) (il : Bool)
    (hk : b.kind = .buffer) (hd : b.direction = .output) :
    preEmit b sp il = get_inv il sp.bits.length sp.invert "o" "buffer.o" := by
  unfold preEmit
  rw [hk]
  dsimp only
  rw [hd]
  rw [if_neg (by decide : ¬ (Direction.output ≠ Direction.output)),
      if_pos (by decide : Direction.output ≠ Direction.input)]
  exact List.nil_append _

theorem lowerBits_insts_not_lut (b : Buf) (sp : SEPort) :
    ∀ i ∈ instsOf (lowerBits b sp (List.range sp.bits.length)).1,
      i.name ≠ "SB_LUT4" := by
  intro i hi
  obtain ⟨bit, _, rfl⟩ := lowerBits_insts_mem b sp _ i hi
  rw [bitInst_name]
  cases hig : igOf b sp bit <;> decide

/-- One single-ended leg lowered with `invert_lut=False` contains no
lookup-table primitive anywhere. -/
theorem instNamed_lowerSingle_false_lut (b : Buf) (sp : SEPort) :
    instNamed (lowerSingle b sp false).1 "SB_LUT4" = [] := by
  unfold lowerSingle
  dsimp only
  rw [instNamed_append,
      instNamed_eq_nil_of_names _ _
        (fun i hi => by rw [instsOf_preEmit_false b sp i hi]; decide),
      instNamed_eq_nil_of_names _ _ (lowerBits_insts_not_lut b sp)]
  rfl

/-- One single-ended leg lowered with `invert_lut=True` by a combinational
output buffer contains exactly one lookup table per inversion flag. -/
theorem instNamed_lut_leg (b : Buf) (sp : SEPort) (hk : b.kind = .buffer)
    (hd : b.direction = .output) :
    (instNamed (lowerSingle b sp true).1 "SB_LUT4").length = sp.invert.length := by
  unfold lowerSingle
  dsimp only
  rw [instNamed_append, List.length_append,
      preEmit_buffer_output b sp true hk hd,
      instNamed_eq_instsOf_of_names _ _ (instsOf_get_inv_true_names _ _ _ _),
      instsOf_get_inv_true_length,
      instNamed_eq_nil_of_names _ _ (lowerBits_insts_not_lut b sp)]
  rfl

/-! ## The claims -/

/-- Input-path type code exactly as the claim's table states it: `0b01`
when the direction is output-only or the registration is combinational,
`0b00` for the registered kinds. -/
def i_typeSpec (d : Direction) (k : BufKind) : Nat :=
  if d = .output then 1
  else if k = .buffer then 1
  else 0

/-- Output-path type code exactly as the claim's table states it:
`0b0000` for input-only, `0b1010` combinational, `0b1101` single
registered, `0b1100` double data rate. -/
def o_typeSpec (d : Direction) (k : BufKind) : Nat :=
  if d = .input then 0
  else if k = .buffer then 10
  else if k = .ffbuffer then 13
  else 12

/-- The claim's packed 6-bit code `(o_type << 2) | i_type`. -/
def pinTypeSpecTable (d : Direction) (k : BufKind) : Nat :=
  (o_typeSpec d k <<< 2) ||| i_typeSpec d k

theorem pinTypeCode_eq_spec (d : Direction) (k : BufKind) :
    pinTypeCode d k = pinTypeSpecTable d k := by
  cases d <;> cases k <;> rfl

/-- Claim C1: every `SB_IO`/`SB_GB_IO` primitive emitted by the
single-ended lowering carries a `PIN_TYPE` parameter equal to
`(o_type << 2) | i_type` with the codes of the claim's table, for every
direction, registration kind, port and `invert_lut` setting. -/
theorem claim1_pin_type_table (b : Buf) (sp : SEPort) (il : Bool) (i : Inst)
    (hm : i ∈ instsOf (lowerSingle b sp il).1) (hio : isIOPrim i = true) :
    pinTypeParam i = some (.const (pinTypeSpecTable b.direction b.kind) 6) := by
  unfold lowerSingle at hm
  dsimp only at hm
  rcases mem_instsOf_append hm with h | h
  · exfalso
    rcases instsOf_preEmit b sp il i h with hn | hn <;>
      (unfold isIOPrim at hio; rw [hn] at hio; exact absurd hio (by decide))
  · obtain ⟨bit, _, rfl⟩ := lowerBits_insts_mem b sp _ i h
    rw [pinTypeParam_bitInst, pinTypeCode_eq_spec]

/-- Witness for C1: a combinational output buffer on a 1-bit port emits an
`SB_IO` whose `PIN_TYPE` is the table's `0b101001`. -/
theorem claim1_witness :
    bitInst { kind := .buffer, direction := .output, iDomain := "s", oDomain := "s" }
        { leg := "io", bits := [{ attrs := [] }], invert := [false] } 0 false
      ∈ instsOf (lowerSingle
          { kind := .buffer, direction := .output, iDomain := "s", oDomain := "s" }
          { leg := "io", bits := [{ attrs := [] }], invert := [false] } false).1
    ∧ pinTypeParam (bitInst
          { kind := .buffer, direction := .output, iDomain := "s", oDomain := "s" }
          { leg := "io", bits := [{ attrs := [] }], invert := [false] } 0 false)
        = some (.const (pinTypeSpecTable .output .buffer) 6) :=
  ⟨by decide,
   claim1_pin_type_table
     { kind := .buffer, direction := .output, iDomain := "s", oDomain := "s" }
     { leg := "io", bits := [{ attrs := [] }], invert := [false] } false _
     (by decide) (by decide)⟩

/-- Counterexample to C2 as stated: with divider exponent 0 the delay is
`D = 4800`, but at cycle 4800 (counting register states after that many
`por` clock edges, from the power-up state) `ready` is still 0 — it first
becomes 1 at cycle `D + 1`, because the latch is set one clock edge after
the timer reaches `D`. -/
theorem claim2_counterexample :
    create_missing_domain
        { default_clk := some "SB_HFOSC", default_rst := none,
          hfosc_div := some (.int 0), default_clk_frequency := 48000000 } "sync"
      = .ok [.inst (hfoscInst 0)] 4800
    ∧ (porRun 4800 4800).ready = false := by
  constructor
  · decide
  · rw [porRun_ready]; decide

/-- Claim C2 as amended: for every divider exponent `e ≤ 3` the
synthesized delay is `D = ceil(100us x 48MHz / 2^e)`, and `ready` is 0 at
every cycle `≤ D` and 1 at every cycle `≥ D + 1` (monotonic, no
flapping). -/
theorem claim2_amended (e t : Nat) (rst : Option String) (f : Nat) (he : e ≤ 3) :
    create_missing_domain
        { default_clk := some "SB_HFOSC", default_rst := rst,
          hfosc_div := some (.int e), default_clk_frequency := f } "sync"
      = .ok [.inst (hfoscInst e)] (hfoscDelay e)
    ∧ hfoscDelay e = cdiv 4800 (2 ^ e)
    ∧ ((porRun (hfoscDelay e) t).ready = true ↔ hfoscDelay e + 1 ≤ t) := by
  refine ⟨?_, ?_, ?_⟩
  · unfold create_missing_domain
    dsimp only
    rw [if_neg (by decide : ¬ ("sync" ≠ "sync")), if_pos rfl]
    have hcond : (!isInstInt (.int (e : Int)) || decide (pyToInt (.int (e : Int)) < 0)
        || decide (3 < pyToInt (.int (e : Int)))) = false := by
      simp only [isInstInt, pyToInt, Bool.not_true, Bool.false_or, Bool.or_eq_false_iff,
        decide_eq_false_iff_not, not_lt]
      constructor
      · exact Int.natCast_nonneg e
      · exact_mod_cast he
    rw [hcond]
    rw [if_neg (by decide : ¬ (false = true))]
    have : (pyToInt (.int (e : Int))).toNat = e := Int.toNat_natCast e
    rw [this]
  · interval_cases e <;> decide
  · rw [porRun_ready]
    simp

/-- Witness for C2 amended, at `e = 1`, `t = 2401`. -/
theorem claim2_amended_witness :
    create_missing_domain
        { default_clk := some "SB_HFOSC", default_rst := none,
          hfosc_div := some (.int 1), default_clk_frequency := 48000000 } "sync"
      = .ok [.inst (hfoscInst 1)] (hfoscDelay 1)
    ∧ hfoscDelay 1 = cdiv 4800 (2 ^ 1)
    ∧ ((porRun (hfoscDelay 1) 2401).ready = true ↔ hfoscDelay 1 + 1 ≤ 2401) :=
  claim2_amended 1 2401 none 48000000 (by decide)

/-- Claim C3: for every delay `D` (in particular the slow-oscillator delay
`D = ceil(100us x 10kHz) = 1`) the `por` timer is a saturating counter —
its value after `t` edges is `min t D`, so it increments while below `D`,
reaches `D`, stops there and never wraps; when it has reached `D` the
`ready` latch is set at the next edge, and once 1 `ready` stays 1
forever. -/
theorem claim3_saturating_monotonic (D t : Nat) (rst : Option String) (f : Nat) :
    (porRun D t).timer = min t D
    ∧ ((porRun D t).ready = true → (porRun D (t + 1)).ready = true)
    ∧ ((porRun D t).timer = D → (porRun D (t + 1)).ready = true)
    ∧ lfoscDelay = cdiv (100 * 10000) 1000000
    ∧ create_missing_domain
        { default_clk := some "SB_LFOSC", default_rst := rst,
          hfosc_div := none, default_clk_frequency := f } "sync"
      = .ok [.inst lfoscInst] lfoscDelay := by
  refine ⟨porRun_timer D t, ?_, ?_, by decide, rfl⟩
  · rw [porRun_ready, porRun_ready]
    simp only [decide_eq_true_eq]
    omega
  · rw [porRun_timer, porRun_ready]
    intro h
    simp only [decide_eq_true_eq]
    omega

/-- Witness for C3 at `D = 2`: after 5 edges the timer has saturated at 2,
and `ready` (already 1 at cycle 5) is still 1 at cycle 6. -/
theorem claim3_witness :
    (porRun 2 5).timer = min 5 2 ∧ (porRun 2 6).ready = true :=
  ⟨(claim3_saturating_monotonic 2 5 none 10000).1,
   (claim3_saturating_monotonic 2 5 none 10000).2.1 (by decide)⟩

/-- Claim C4 (the code slip it exposes): for every registration kind and
every differential port, lowering an input-direction buffer raises
`UnboundLocalError` — line 581 reads the local `invert_lut`, which is only
assigned in the output branch (line 571) — instead of emitting the one
`SB_IO` per bit for the positive leg that the claim (and the source's own
comment at lines 576-580) describes. -/
theorem claim4_diff_input_raises (k : BufKind) (idom odom : String) (dp : DiffPort) :
    get_io_buffer { kind := k, direction := .input, iDomain := idom, oDomain := odom }
        (.diff dp)
      = ([], some .unboundLocalInvertLut) := rfl

/-- Counterexample to C5 as stated: a single-registered (FFBuffer)
single-ended 1-bit input with its invert flag set is lowered with zero
`SB_LUT4` primitives — its inversion is a combinational complement of the
net instead. -/
theorem claim5_counterexample :
    (instNamed (get_io_buffer
        { kind := .ffbuffer, direction := .input, iDomain := "d", oDomain := "d" }
        (.single { leg := "io", bits := [{ attrs := [] }], invert := [true] })).1
      "SB_LUT4").length = 0
    ∧ combsOf (get_io_buffer
        { kind := .ffbuffer, direction := .input, iDomain := "d", oDomain := "d" }
        (.single { leg := "io", bits := [{ attrs := [] }], invert := [true] })).1
      = [{ y := "buffer.i", a := "i", kind := .complement }] := by
  constructor
  · decide
  · decide

/-- Claim C5 as amended: non-combinational (and all single-ended)
lowerings never instantiate a lookup table — their inversion is applied to
the net (pass-through, complement, or constant-mask XOR); per-bit
`SB_LUT4` primitives are emitted exactly for the two legs of a
*combinational* differential output buffer, one per bit and leg. -/
theorem claim5_amended :
    (∀ (b : Buf) (p : Port), ((∃ sp, p = .single sp) ∨ b.kind ≠ .buffer) →
        instNamed (get_io_buffer b p).1 "SB_LUT4" = [])
    ∧ (∀ (b : Buf) (dp : DiffPort), b.kind = .buffer → b.direction = .output →
        (instNamed (get_io_buffer b (.diff dp)).1 "SB_LUT4").length
          = 2 * dp.invert.length) := by
  constructor
  · intro b p h
    cases p with
    | single sp => exact instNamed_lowerSingle_false_lut b sp
    | diff dp =>
      have hk : b.kind ≠ .buffer := by
        rcases h with ⟨sp, hsp⟩ | hk
        · cases hsp
        · exact hk
      obtain ⟨k, d, idom, odom⟩ := b
      unfold get_io_buffer
      dsimp only
      cases d with
      | bidir => rfl
      | input => rfl
      | output =>
        dsimp only at hk
        rw [if_neg hk]
        rw [lowerSingle_output_noerr _ _ false rfl]
        dsimp only
        rw [instNamed_append, instNamed_lowerSingle_false_lut,
            instNamed_lowerSingle_false_lut]
        rfl
  · intro b dp hk hd
    obtain ⟨k, d, idom, odom⟩ := b
    dsimp only at hk hd
    subst hk
    subst hd
    unfold get_io_buffer
    dsimp only
    rw [if_pos rfl]
    rw [lowerSingle_output_noerr _ _ true rfl]
    dsimp only
    rw [instNamed_append, List.length_append,
        instNamed_lut_leg _ _ rfl rfl, instNamed_lut_leg _ _ rfl rfl]
    simp [notInvert]
    omega

/-- Witness for C5 amended: a single-ended FFBuffer output (part 1), and a
combinational differential 2-bit output which gets `2 x 2` lookup tables
(part 2). -/
theorem claim5_amended_witness :
    instNamed (get_io_buffer
        { kind := .ffbuffer, direction := .output, iDomain := "d", oDomain := "d" }
        (.single { leg := "io", bits := [{ attrs := [] }], invert := [true] })).1
      "SB_LUT4" = []
    ∧ (instNamed (get_io_buffer
        { kind := .buffer, direction := .output, iDomain := "d", oDomain := "d" }
        (.diff { p := [{ attrs := [] }, { attrs := [] }],
                 n := [{ attrs := [] }, { attrs := [] }],
                 invert := [true, false] })).1
      "SB_LUT4").length = 2 * [true, false].length :=
  ⟨claim5_amended.1
     { kind := .ffbuffer, direction := .output, iDomain := "d", oDomain := "d" }
     (.single { leg := "io", bits := [{ attrs := [] }], invert := [true] })
     (Or.inl ⟨_, rfl⟩),
   claim5_amended.2
     { kind := .buffer, direction := .output, iDomain := "d", oDomain := "d" }
     { p := [{ attrs := [] }, { attrs := [] }],
       n := [{ attrs := [] }, { attrs := [] }],
       invert := [true, false] } rfl rfl⟩

/-- Claim C6: for every registration kind, lowering a bidirectional
differential buffer raises the differential-bidir exception — of the
spec's `UnsupportedConfiguration` class — before any primitive is
emitted (the emitted item list is empty). -/
theorem claim6_diff_bidir (k : BufKind) (idom odom : String) (dp : DiffPort) :
    get_io_buffer { kind := k, direction := .bidir, iDomain := idom, oDomain := odom }
        (.diff dp)
      = ([], some .tyDiffBidir)
    ∧ isUnsupportedConfiguration .tyDiffBidir = true :=
  ⟨rfl, rfl⟩

/-- Claim C7: on a non-output buffer, a bit whose pin carries a truthy
`GLOBAL` marker makes the lowering raise an `UnsupportedConfiguration`
class exception whenever that bit's invert flag is set or the buffer is
registered; with no `GLOBAL` markers the same descriptor lowers without
raising. -/
theorem claim7_global_input :
    (∀ (b : Buf) (sp : SEPort) (il : Bool) (bit : Nat),
        b.direction ≠ .output → bit < sp.bits.length → globalAt sp bit = true →
        (sp.invert.getD bit false = true ∨ b.kind ≠ .buffer) →
        ∃ e, (lowerSingle b sp il).2 = some e ∧ isUnsupportedConfiguration e = true)
    ∧ (∀ (b : Buf) (sp : SEPort) (il : Bool),
        (∀ bit, globalAt sp bit = false) →
        (lowerSingle b sp il).2 = none) :=
  ⟨fun b sp il bit hd hlt hg hbad => lowerSingle_global_fails b sp il bit hd hlt hg hbad,
   fun b sp il h => lowerSingle_noglobal_ok b sp il h⟩

/-- Witness for C7: a registered input bit on a `GLOBAL` pin fails with an
unsupported-configuration exception; the identical descriptor on an
unmarked pin succeeds. -/
theorem claim7_witness :
    (∃ e, (lowerSingle
        { kind := .ffbuffer, direction := .input, iDomain := "d", oDomain := "d" }
        { leg := "io", bits := [{ attrs := [("GLOBAL", .bool true)] }],
          invert := [false] } false).2
      = some e ∧ isUnsupportedConfiguration e = true)
    ∧ (lowerSingle
        { kind := .ffbuffer, direction := .input, iDomain := "d", oDomain := "d" }
        { leg := "io", bits := [{ attrs := [] }], invert := [false] } false).2
      = none :=
  ⟨claim7_global_input.1
     { kind := .ffbuffer, direction := .input, iDomain := "d", oDomain := "d" }
     { leg := "io", bits := [{ attrs := [("GLOBAL", .bool true)] }], invert := [false] }
     false 0 (by decide) (by decide) (by decide) (Or.inr (by decide)),
   claim7_global_input.2
     { kind := .ffbuffer, direction := .input, iDomain := "d", oDomain := "d" }
     { leg := "io", bits := [{ attrs := [] }], invert := [false] } false
     (fun bit => by cases bit <;> rfl)⟩

/-- Claim C8: with the fast internal oscillator selected, a missing
divider exponent, or one that is not a Python integer or lies outside
`[0, 3]`, makes domain synthesis raise an `InvalidConfiguration`-class
exception that carries the offending value, with no primitive emitted
before the exception. -/
theorem claim8_hfosc_validation (rst : Option String) (f : Nat) (v : PyVal)
    (hbad : isInstInt v = false ∨ pyToInt v < 0 ∨ 3 < pyToInt v) :
    create_missing_domain
        { default_clk := some "SB_HFOSC", default_rst := rst,
          hfosc_div := none, default_clk_frequency := f } "sync"
      = .err [] .valHfoscDivMissing
    ∧ create_missing_domain
        { default_clk := some "SB_HFOSC", default_rst := rst,
          hfosc_div := some v, default_clk_frequency := f } "sync"
      = .err [] (.valHfoscDivBad v)
    ∧ isInvalidConfiguration .valHfoscDivMissing = true
    ∧ isInvalidConfiguration (.valHfoscDivBad v) = true := by
  refine ⟨rfl, ?_, rfl, rfl⟩
  unfold create_missing_domain
  dsimp only
  rw [if_neg (by decide : ¬ ("sync" ≠ "sync")), if_pos rfl]
  have hcond : (!isInstInt v || decide (pyToInt v < 0) || decide (3 < pyToInt v))
      = true := by
    rcases hbad with h | h | h
    · rw [h]; rfl
    · simp [h]
    · simp [h]
  rw [hcond, if_pos rfl]

/-- Witness for C8: the float value 1.0 (not a Python `int`) and the
integer 4 (out of range) are both rejected. -/
theorem claim8_witness :
    create_missing_domain
        { default_clk := some "SB_HFOSC", default_rst := none,
          hfosc_div := none, default_clk_frequency := 48000000 } "sync"
      = .err [] .valHfoscDivMissing
    ∧ create_missing_domain
        { default_clk := some "SB_HFOSC", default_rst := none,
          hfosc_div := some (.float 1), default_clk_frequency := 48000000 } "sync"
      = .err [] (.valHfoscDivBad (.float 1))
    ∧ isInvalidConfiguration .valHfoscDivMissing = true
    ∧ isInvalidConfiguration (.valHfoscDivBad (.float 1)) = true :=
  claim8_hfosc_validation none 48000000 (.float 1) (Or.inl (by decide))

/-- Claim C9: a combinational single-ended output lowering (which never
uses lookup-table inversion) applies the inversion to the bus as one
combinational assignment whose transform is exactly XOR with the constant
mask built from the invert flags (the complement when all flags are set,
the identity when none are), emits one primitive per bit, and connects
`OUTPUT_ENABLE` on every bit's primitive. -/
theorem claim9_comb_mask (b : Buf) (sp : SEPort)
    (hk : b.kind = .buffer) (hd : b.direction = .output) :
    (get_io_buffer b (.single sp)).2 = none
    ∧ (∃ c, combsOf (get_io_buffer b (.single sp)).1 = [c] ∧ c.y = "o"
        ∧ c.a = "buffer.o"
        ∧ ∀ x : Nat, c.kind.apply sp.bits.length x = x ^^^ maskOf sp.invert)
    ∧ (instsOf (get_io_buffer b (.single sp)).1).length = sp.bits.length
    ∧ (∀ i ∈ instsOf (get_io_buffer b (.single sp)).1,
        Arg.port "i" "OUTPUT_ENABLE" Conn.oe ∈ i.args) := by
  have hgio : get_io_buffer b (.single sp) = lowerSingle b sp false := rfl
  rw [hgio]
  refine ⟨lowerSingle_output_noerr b sp false hd, ?_, ?_, ?_⟩
  · refine ⟨invAssign sp.bits.length sp.invert "o" "buffer.o", ?_, rfl, rfl, ?_⟩
    · unfold lowerSingle
      dsimp only
      rw [combsOf_append, combsOf_lowerBits,
          preEmit_buffer_output b sp false hk hd, combsOf_get_inv_false]
      rfl
    · intro x
      unfold invAssign
      by_cases h0 : maskOf sp.invert = 0
      · rw [if_pos h0]
        dsimp only [InvKind.apply]
        rw [h0, Nat.xor_zero]
      · rw [if_neg h0]
        by_cases h1 : maskOf sp.invert = 2 ^ sp.bits.length - 1
        · rw [if_pos h1]
          dsimp only [InvKind.apply]
          rw [h1, Nat.xor_comm]
        · rw [if_neg h1]
          rfl
  · unfold lowerSingle
    dsimp only
    rw [instsOf_append, List.length_append,
        preEmit_buffer_output b sp false hk hd, instsOf_get_inv_false,
        lowerBits_insts_length b sp _
          (lowerBits_noerr_of_ig b sp (fun bit => igOf_output b sp bit hd) _)]
    simp
  · intro i hi
    unfold lowerSingle at hi
    dsimp only at hi
    rw [preEmit_buffer_output b sp false hk hd] at hi
    rcases mem_instsOf_append hi with h | h
    · rw [instsOf_get_inv_false] at h
      cases h
    · obtain ⟨bit, _, rfl⟩ := lowerBits_insts_mem b sp _ i h
      show Arg.port "i" "OUTPUT_ENABLE" Conn.oe
        ∈ lowerBitArgs b sp bit (igOf b sp bit) ++ lowerBitTail b
      refine List.mem_append_right _ ?_
      unfold lowerBitTail
      rw [if_pos (by rw [hd]; decide : b.direction ≠ .input)]
      exact List.mem_cons_of_mem _ (List.mem_singleton.mpr rfl)

/-- Witness for C9, the claim's scenario: a 4-bit combinational output with
`invert = [F, T, F, T]`, whose mask is `0b1010 = 10`. -/
theorem claim9_witness :
    maskOf [false, true, false, true] = 10
    ∧ ((get_io_buffer
          { kind := .buffer, direction := .output, iDomain := "d", oDomain := "d" }
          (.single { leg := "io",
                     bits := [{ attrs := [] }, { attrs := [] },
                              { attrs := [] }, { attrs := [] }],
                     invert := [false, true, false, true] })).2 = none
    ∧ (∃ c, combsOf (get_io_buffer
          { kind := .buffer, direction := .output, iDomain := "d", oDomain := "d" }
          (.single { leg := "io",
                     bits := [{ attrs := [] }, { attrs := [] },
                              { attrs := [] }, { attrs := [] }],
                     invert := [false, true, false, true] })).1 = [c] ∧ c.y = "o"
        ∧ c.a = "buffer.o"
        ∧ ∀ x : Nat, c.kind.apply 4 x = x ^^^ maskOf [false, true, false, true])
    ∧ (instsOf (get_io_buffer
          { kind := .buffer, direction := .output, iDomain := "d", oDomain := "d" }
          (.single { leg := "io",
                     bits := [{ attrs := [] }, { attrs := [] },
                              { attrs := [] }, { attrs := [] }],
                     invert := [false, true, false, true] })).1).length = 4
    ∧ (∀ i ∈ instsOf (get_io_buffer
          { kind := .buffer, direction := .output, iDomain := "d", oDomain := "d" }
          (.single { leg := "io",
                     bits := [{ attrs := [] }, { attrs := [] },
                              { attrs := [] }, { attrs := [] }],
                     invert := [false, true, false, true] })).1,
        Arg.port "i" "OUTPUT_ENABLE" Conn.oe ∈ i.args)) :=
  ⟨by decide,
   claim9_comb_mask
     { kind := .buffer, direction := .output, iDomain := "d", oDomain := "d" }
     { leg := "io",
       bits := [{ attrs := [] }, { attrs := [] }, { attrs := [] }, { attrs := [] }],
       invert := [false, true, false, true] } rfl rfl⟩

/-- Claim C10: for an output-direction buffer the `GLOBAL` marker is
ignored — the lowering succeeds with no exception, emits no `SB_GB_IO`,
and emits the standard `SB_IO` for every bit, for every registration kind,
any invert flags and any `invert_lut` setting. -/
theorem claim10_output_ignores_global (b : Buf) (sp : SEPort) (il : Bool)
    (hd : b.direction = .output) :
    (lowerSingle b sp il).2 = none
    ∧ instNamed (lowerSingle b sp il).1 "SB_GB_IO" = []
    ∧ (instNamed (lowerSingle b sp il).1 "SB_IO").length = sp.bits.length := by
  have hloop : ∀ i ∈ instsOf (lowerBits b sp (List.range sp.bits.length)).1,
      i.name = "SB_IO" := by
    intro i hi
    obtain ⟨bit, _, rfl⟩ := lowerBits_insts_mem b sp _ i hi
    rw [bitInst_name, igOf_output b sp bit hd]
    rfl
  refine ⟨lowerSingle_output_noerr b sp il hd, ?_, ?_⟩
  · unfold lowerSingle
    dsimp only
    rw [instNamed_append,
        instNamed_eq_nil_of_names _ _
          (fun i hi => by
            rcases instsOf_preEmit b sp il i hi with h | h <;> (rw [h]; decide)),
        instNamed_eq_nil_of_names _ _
          (fun i hi => by rw [hloop i hi]; decide)]
    rfl
  · unfold lowerSingle
    dsimp only
    rw [instNamed_append, List.length_append,
        instNamed_eq_nil_of_names _ _
          (fun i hi => by
            rcases instsOf_preEmit b sp il i hi with h | h <;> (rw [h]; decide)),
        instNamed_eq_instsOf_of_names _ _ hloop,
        lowerBits_insts_length b sp _
          (lowerBits_noerr_of_ig b sp (fun bit => igOf_output b sp bit hd) _)]
    simp

/-- Witness for C10: a registered output buffer on a `GLOBAL`-marked,
inverted 1-bit pin still lowers to a plain `SB_IO` with no exception. -/
theorem claim10_witness :
    (lowerSingle
        { kind := .ffbuffer, direction := .output, iDomain := "d", oDomain := "d" }
        { leg := "io", bits := [{ attrs := [("GLOBAL", .bool true)] }],
          invert := [true] } false).2 = none
    ∧ instNamed (lowerSingle
        { kind := .ffbuffer, direction := .output, iDomain := "d", oDomain := "d" }
        { leg := "io", bits := [{ attrs := [("GLOBAL", .bool true)] }],
          invert := [true] } false).1 "SB_GB_IO" = []
    ∧ (instNamed (lowerSingle
        { kind := .ffbuffer, direction := .output, iDomain := "d", oDomain := "d" }
        { leg := "io", bits := [{ attrs := [("GLOBAL", .bool true)] }],
          invert := [true] } false).1 "SB_IO").length = 1 :=
  claim10_output_ignores_global
    { kind := .ffbuffer, direction := .output, iDomain := "d", oDomain := "d" }
    { leg := "io", bits := [{ attrs := [("GLOBAL", .bool true)] }], invert := [true] }
    false rfl

end SiliconBlue
